import Mathlib

/-!
Verification of the CAN-bus ECU simulator (`src/FIRMWARE/sim/ecu_sim.py`).

A shallow embedding of the simulator's main loop and of the Signal Codec
contract, together with proofs of the specification's testable properties.

Conventions of the embedding:
* Python floats are modelled by exact rationals (`ℚ`); the properties at stake
  are algebraic identities of the update rules, stated over exact arithmetic.
* The `random.uniform` draws are inputs of each step (`RandomDraws`), so every
  function is a pure state transition.
* Python's arbitrary-precision int bitmasks are `ℕ`; `a & ~b` on non-negative
  ints equals `a ^^^ (a &&& b)` (the bits of `a` not set in `b`), which is how
  `andNot` renders it.
-/

namespace EcuSim

/-- Decoded signals of the `SteeringWheel_Status` input message (id `0x101`):
four boolean buttons plus the two numeric passthrough values. -/
structure SWStatus where
  Button_UP : Bool
  Button_DOWN : Bool
  Button_DRS : Bool
  Button_PitLimiter : Bool
  ClutchValue : ℚ
  RotaryPosition : ℚ
deriving DecidableEq

/-- The script's mutable globals (lines 45-54 of `ecu_sim.py`): gear,
pit/DRS latches, previous button bitmask, and the thermal state of the two
simulated temperature sensors. -/
structure SimState where
  gear : ℤ
  pit_active : Bool
  drs_status : Bool
  prev_buttons : ℕ
  temp1 : ℚ
  temp2 : ℚ
  target_temp1 : ℚ
  target_temp2 : ℚ
  update_counter : ℕ
deriving DecidableEq

/-- The state at process start (lines 45-54): `gear = 0`, latches off,
`prev_buttons = 0`, counter `0`, and the randomly drawn initial temperatures
`t1`, `t2` with targets equal to them. -/
def initState (t1 t2 : ℚ) : SimState :=
  { gear := 0, pit_active := false, drs_status := false, prev_buttons := 0,
    temp1 := t1, temp2 := t2, target_temp1 := t1, target_temp2 := t2,
    update_counter := 0 }

/-- Python's `a & ~b` on non-negative ints: the bits of `a` not set in `b`. -/
def andNot (a b : ℕ) : ℕ := a ^^^ (a &&& b)

/-- The button bitmask built at lines 73-81: Up=bit0, Down=bit1, DRS=bit2,
PitLimiter=bit3. -/
def buttonsMask (d : SWStatus) : ℕ :=
  (if d.Button_UP then 1 else 0) |||
  (if d.Button_DOWN then 2 else 0) |||
  (if d.Button_DRS then 4 else 0) |||
  (if d.Button_PitLimiter then 8 else 0)

/-- The edge-detection and discrete-state update of lines 83-101: rising
edges (`buttons & ~prev_buttons`), change bits (`buttons ^ prev_buttons`),
gear increment/decrement with clamps at 9 and 0, pit and DRS toggles on
rising edges, and the unconditional replacement of `prev_buttons`. -/
def trackerUpdate (s : SimState) (d : SWStatus) : SimState :=
  let buttons := buttonsMask d
  let rising_edges := andNot buttons s.prev_buttons
  let changes := buttons ^^^ s.prev_buttons
  let gear1 := if changes &&& 0x01 ≠ 0 then min (s.gear + 1) 9 else s.gear
  let gear2 := if changes &&& 0x02 ≠ 0 then max (gear1 - 1) 0 else gear1
  let pit := if rising_edges &&& 0x08 ≠ 0 then !s.pit_active else s.pit_active
  let drs := if rising_edges &&& 0x04 ≠ 0 then !s.drs_status else s.drs_status
  { s with gear := gear2, pit_active := pit, drs_status := drs,
           prev_buttons := buttons }

/-- The random draws consumed by one processed cycle: the two freshly drawn
targets (used only every 20th call) and the two additive noise terms. -/
structure RandomDraws where
  newTarget1 : ℚ
  newTarget2 : ℚ
  noise1 : ℚ
  noise2 : ℚ
deriving DecidableEq

/-- The slow temperature dynamics of lines 104-121: increment the counter,
reassign both targets on every 20th call, move each current value 5% of the
way toward its target, then add the noise term. -/
def thermalAdvance (s : SimState) (env : RandomDraws) : SimState :=
  let c := s.update_counter + 1
  let t1 := if c % 20 = 0 then env.newTarget1 else s.target_temp1
  let t2 := if c % 20 = 0 then env.newTarget2 else s.target_temp2
  { s with update_counter := c, target_temp1 := t1, target_temp2 := t2,
           temp1 := s.temp1 + (t1 - s.temp1) * (5 / 100) + env.noise1,
           temp2 := s.temp2 + (t2 - s.temp2) * (5 / 100) + env.noise2 }

/-- The signal values of the `ECU_Status_Display` output message as assembled
at lines 125-137, from the state current at assembly time and the two
passthrough fields of the decoded input. -/
structure OutSignals where
  Temp1 : ℚ
  Temp2 : ℚ
  PitLimiter_Active : Bool
  DRS_Status : Bool
  LED2_PitLimiter : Bool
  LED1_Temperature : Bool
  Gear_Actual : ℤ
  Clutch_Feedback : ℚ
  Rotary_Feedback : ℚ
deriving DecidableEq

/-- Assembly of the output signal mapping (lines 125-137). -/
def buildOutput (s : SimState) (d : SWStatus) : OutSignals :=
  { Temp1 := s.temp1, Temp2 := s.temp2,
    PitLimiter_Active := s.pit_active,
    DRS_Status := s.drs_status,
    LED2_PitLimiter := s.pit_active,
    LED1_Temperature := decide (s.temp2 > 130),
    Gear_Actual := s.gear,
    Clutch_Feedback := d.ClutchValue,
    Rotary_Feedback := d.RotaryPosition }

/-- Equality of `Except` results is decidable componentwise; used to evaluate
concrete runs of the loop. -/
instance {ε α : Type} [DecidableEq ε] [DecidableEq α] :
    DecidableEq (Except ε α) := fun a b =>
  match a, b with
  | .error e1, .error e2 => decidable_of_iff (e1 = e2) (by simp)
  | .ok v1, .ok v2 => decidable_of_iff (v1 = v2) (by simp)
  | .error _, .ok _ => isFalse (by simp)
  | .ok _, .error _ => isFalse (by simp)

/-- A raw CAN frame as the loop sees it: arbitration identifier and data
bytes. -/
structure Frame where
  arbitration_id : ℕ
  payload : List ℕ
deriving DecidableEq

/-- The codec error taxonomy of spec §7 that the loop body can raise. -/
inductive CodecError where
  | decodeError
  | encodeError
deriving DecidableEq

/-- Modelled from the spec: the `SteeringWheel_Status` layout lives in
`drivers/steering_wheel.dbc`, which is not under `src/`. Per §4.1, decode
fails with a `DecodeError` when the payload is shorter than required by a
signal's bit range; per §6 the message carries four boolean button signals
and two numeric passthrough signals. A representative layout is fixed here:
byte 0 holds the button bits in the §4.2 order (Up=bit0, Down=bit1, DRS=bit2,
PitLimiter=bit3), byte 1 is `ClutchValue` and byte 2 is `RotaryPosition`
(scale 1, offset 0), so at least 3 payload bytes are required. -/
def decodeSW (payload : List ℕ) : Except CodecError SWStatus :=
  match payload with
  | b0 :: b1 :: b2 :: _ =>
      .ok { Button_UP := b0 &&& 1 != 0, Button_DOWN := b0 &&& 2 != 0,
            Button_DRS := b0 &&& 4 != 0, Button_PitLimiter := b0 &&& 8 != 0,
            ClutchValue := (b1 : ℚ), RotaryPosition := (b2 : ℚ) }
  | _ => .error .decodeError

/-- One iteration of the `while True` loop body (lines 60-143). `none` models
a receive timeout (`continue`); a frame whose identifier is not `0x101` skips
the whole processing block; a matching frame is decoded, the tracker and the
thermal model run, and the output signals are assembled from the updated
state. A codec exception is uncaught in the source, so it propagates out of
the loop; this is modelled by `Except.error` carrying the error and the
global state at the moment it is raised. -/
def cycleStep (s : SimState) (env : RandomDraws) (msg : Option Frame) :
    Except (CodecError × SimState) (SimState × Option OutSignals) :=
  match msg with
  | none => .ok (s, none)
  | some m =>
      if m.arbitration_id = 0x101 then
        match decodeSW m.payload with
        | .error e => .error (e, s)
        | .ok d =>
            let s1 := trackerUpdate s d
            let s2 := thermalAdvance s1 env
            .ok (s2, some (buildOutput s2 d))
      else
        .ok (s, none)

/-- The driver loop run over a finite stream of receive results, collecting
the emitted output frames in order. On an uncaught codec exception the Python
loop terminates: the run stops and the remaining events are never processed. -/
def runLoop (s : SimState) :
    List (RandomDraws × Option Frame) →
      Except (CodecError × SimState) (SimState × List OutSignals)
  | [] => .ok (s, [])
  | (env, msg) :: rest =>
      match cycleStep s env msg with
      | .error e => .error e
      | .ok (s1, out) =>
          match runLoop s1 rest with
          | .error e => .error e
          | .ok (s2, outs) =>
              .ok (s2, match out with | none => outs | some o => o :: outs)

/-- The tracker iterated over a list of decoded inputs (one per processed
frame). -/
def runTracker (s : SimState) : List SWStatus → SimState
  | [] => s
  | d :: rest => runTracker (trackerUpdate s d) rest

/-- `true` when this update sees a rising edge on the PitLimiter bit
(bit 3): the guard of the PIT toggle at line 96. -/
def pitRising (s : SimState) (d : SWStatus) : Bool :=
  andNot (buttonsMask d) s.prev_buttons &&& 0x08 != 0

/-- Number of updates in the run that see a rising PitLimiter edge. -/
def countPitRising (s : SimState) : List SWStatus → ℕ
  | [] => 0
  | d :: rest =>
      (if pitRising s d then 1 else 0) + countPitRising (trackerUpdate s d) rest

/-- The gear rule in the words of spec §4.2 step 4: if the Up bit changed,
increment clamped at 9; if the Down bit changed, decrement clamped at 0; the
two conditions independent, the increment applied first. -/
def gearSpecStep (gear : ℤ) (upChanged downChanged : Bool) : ℤ :=
  let g1 := if upChanged then min (gear + 1) 9 else gear
  if downChanged then max (g1 - 1) 0 else g1

/-! ## Basic lemmas about the tracker -/

/-- Gear bounds are preserved by a single tracker update. -/
lemma trackerUpdate_gear_bounds (s : SimState) (d : SWStatus)
    (h0 : 0 ≤ s.gear) (h9 : s.gear ≤ 9) :
    0 ≤ (trackerUpdate s d).gear ∧ (trackerUpdate s d).gear ≤ 9 := by
  simp only [trackerUpdate]
  split <;> split <;> constructor <;> omega

/-- Gear bounds are preserved by any run of the tracker. -/
lemma runTracker_gear_bounds (l : List SWStatus) :
    ∀ s : SimState, 0 ≤ s.gear → s.gear ≤ 9 →
      0 ≤ (runTracker s l).gear ∧ (runTracker s l).gear ≤ 9 := by
  induction l with
  | nil => exact fun s h0 h9 => ⟨h0, h9⟩
  | cons d rest ih =>
      intro s h0 h9
      obtain ⟨h0u, h9u⟩ := trackerUpdate_gear_bounds s d h0 h9
      exact ih (trackerUpdate s d) h0u h9u

/-! ## Claims about the Edge/State Tracker -/

/-- C2: starting from the initial state, after any sequence of tracker
updates the gear value stays in the integer interval `[0, 9]`: no sequence of
Up-bit changes drives it above 9 and no sequence of Down-bit changes drives
it below 0. -/
theorem gear_always_in_range (t1 t2 : ℚ) (l : List SWStatus) :
    0 ≤ (runTracker (initState t1 t2) l).gear ∧
      (runTracker (initState t1 t2) l).gear ≤ 9 :=
  runTracker_gear_bounds l (initState t1 t2) (by simp [initState]) (by simp [initState])

/-- C3: in every tracker update the new gear value is exactly the spec's
rule applied to the change bits `current XOR previous`: increment clamped at
9 when the Up bit changed, decrement clamped at 0 when the Down bit changed,
the two conditions evaluated independently (both apply when both bits
changed, the increment first), keyed on any change of a button, not only a
press. -/
theorem gear_step_matches_spec (s : SimState) (d : SWStatus) :
    (trackerUpdate s d).gear =
      gearSpecStep s.gear
        (decide ((buttonsMask d ^^^ s.prev_buttons) &&& 0x01 ≠ 0))
        (decide ((buttonsMask d ^^^ s.prev_buttons) &&& 0x02 ≠ 0)) := by
  simp only [trackerUpdate, gearSpecStep]
  split <;> split <;> simp_all

/-- The pit latch after one update: toggled exactly when the update sees a
rising PitLimiter edge. -/
lemma trackerUpdate_pit (s : SimState) (d : SWStatus) :
    (trackerUpdate s d).pit_active =
      if pitRising s d then !s.pit_active else s.pit_active := by
  simp only [trackerUpdate, pitRising, bne_iff_ne]

/-- Parity of a bumped count: prefixing one rising edge flips the parity
bit. -/
lemma decide_succ_mod_two (n : ℕ) :
    decide ((1 + n) % 2 = 1) = !decide (n % 2 = 1) := by
  by_cases h : n % 2 = 1 <;> simp [h] <;> omega

/-- The pit latch after a run equals the initial value xor-ed with the parity
of the number of rising PitLimiter edges seen along the run: each rising edge
flips `pit_active` exactly once. -/
lemma runTracker_pit_parity (l : List SWStatus) :
    ∀ s : SimState,
      (runTracker s l).pit_active =
        xor s.pit_active (decide (countPitRising s l % 2 = 1)) := by
  induction l with
  | nil => intro s; simp [runTracker, countPitRising]
  | cons d rest ih =>
      intro s
      show (runTracker (trackerUpdate s d) rest).pit_active = _
      rw [ih (trackerUpdate s d), trackerUpdate_pit]
      by_cases hr : pitRising s d = true
      · rw [if_pos hr]
        have hcount : countPitRising s (d :: rest) =
            1 + countPitRising (trackerUpdate s d) rest := by
          simp [countPitRising, hr]
        rw [hcount, decide_succ_mod_two]
        cases s.pit_active <;>
          cases (decide (countPitRising (trackerUpdate s d) rest % 2 = 1)) <;> rfl
      · rw [if_neg hr]
        have hcount : countPitRising s (d :: rest) =
            countPitRising (trackerUpdate s d) rest := by
          simp [countPitRising, hr]
        rw [hcount]

/-- C4: from any starting state, a run of tracker updates in which the
PitLimiter bit rises exactly twice (each rising edge `0 → 1` taken relative
to the previous bitmask) returns `pit_active` to its original value, because
each rising edge flips it exactly once. (Two consecutive updates cannot both
be rising — the bit must fall back in between — so the two rising edges of
the claim occur along a sequence of updates.) -/
theorem pit_two_rising_edges (s : SimState) (l : List SWStatus)
    (h : countPitRising s l = 2) :
    (runTracker s l).pit_active = s.pit_active := by
  rw [runTracker_pit_parity l s, h]
  simp

/-- C4 witness: press, release, press of the PitLimiter button from the
initial state gives exactly two rising edges and leaves the latch where it
started. -/
theorem pit_two_rising_edges_witness :
    countPitRising (initState 0 0)
        [⟨false, false, false, true, 0, 0⟩, ⟨false, false, false, false, 0, 0⟩,
          ⟨false, false, false, true, 0, 0⟩] = 2 ∧
      (runTracker (initState 0 0)
          [⟨false, false, false, true, 0, 0⟩, ⟨false, false, false, false, 0, 0⟩,
            ⟨false, false, false, true, 0, 0⟩]).pit_active =
        (initState 0 0).pit_active :=
  ⟨by decide, pit_two_rising_edges _ _ (by decide)⟩

/-- C5: on the very first update (previous bitmask 0) with Up pressed and the
other buttons released, a rising edge on the Up bit is registered and gear
becomes `min (gear + 1) 9` — an increment of exactly 1 whenever gear is below
the clamp; likewise, with previous bitmask 0, an initially-pressed PitLimiter
or DRS button toggles its latch on the first frame. -/
theorem first_cycle_edge (s : SimState) (d : SWStatus)
    (hprev : s.prev_buttons = 0)
    (hup : d.Button_UP = true) (hdown : d.Button_DOWN = false)
    (hdrs : d.Button_DRS = false) (hpit : d.Button_PitLimiter = false) :
    andNot (buttonsMask d) s.prev_buttons &&& 0x01 ≠ 0 ∧
      (trackerUpdate s d).gear = min (s.gear + 1) 9 ∧
      (s.gear < 9 → (trackerUpdate s d).gear = s.gear + 1) ∧
      (∀ d2 : SWStatus, d2.Button_PitLimiter = true →
        (trackerUpdate s d2).pit_active = !s.pit_active) ∧
      (∀ d2 : SWStatus, d2.Button_DRS = true →
        (trackerUpdate s d2).drs_status = !s.drs_status) := by
  have hmask : buttonsMask d = 1 := by
    simp [buttonsMask, hup, hdown, hdrs, hpit]
  refine ⟨?_, ?_, ?_, ?_, ?_⟩
  · rw [hmask, hprev]; decide
  · simp [trackerUpdate, hmask, hprev]
  · intro hlt
    simp [trackerUpdate, hmask, hprev]
    omega
  · intro d2 hp2
    rcases d2 with ⟨u, dn, dr, p, cv, rp⟩
    cases u <;> cases dn <;> cases dr <;>
      simp_all [trackerUpdate, buttonsMask, andNot, hprev]
  · intro d2 hd2
    rcases d2 with ⟨u, dn, dr, p, cv, rp⟩
    cases u <;> cases dn <;> cases p <;>
      simp_all [trackerUpdate, buttonsMask, andNot, hprev]

/-- C5 witness: from the initial state (gear 0, previous bitmask 0), the
first frame with only Up pressed registers a rising Up edge and shifts gear
to exactly 1; an initially-pressed PitLimiter or DRS toggles its latch. -/
theorem first_cycle_edge_witness :
    andNot (buttonsMask ⟨true, false, false, false, 0, 0⟩)
        (initState 0 0).prev_buttons &&& 0x01 ≠ 0 ∧
      (trackerUpdate (initState 0 0) ⟨true, false, false, false, 0, 0⟩).gear =
        min ((initState 0 0).gear + 1) 9 ∧
      ((initState 0 0).gear < 9 →
        (trackerUpdate (initState 0 0) ⟨true, false, false, false, 0, 0⟩).gear =
          (initState 0 0).gear + 1) ∧
      (∀ d2 : SWStatus, d2.Button_PitLimiter = true →
        (trackerUpdate (initState 0 0) d2).pit_active =
          !(initState 0 0).pit_active) ∧
      (∀ d2 : SWStatus, d2.Button_DRS = true →
        (trackerUpdate (initState 0 0) d2).drs_status =
          !(initState 0 0).drs_status) :=
  first_cycle_edge (initState 0 0) ⟨true, false, false, false, 0, 0⟩
    rfl rfl rfl rfl rfl

/-! ## Claims about the Cycle Driver -/

/-- C6: a received frame whose arbitration identifier is not `0x101` produces
no output frame and leaves the whole state — gear, latches, previous bitmask,
thermal state, update counter — unchanged. -/
theorem nonmatching_frame_no_effect (s : SimState) (env : RandomDraws)
    (f : Frame) (h : f.arbitration_id ≠ 0x101) :
    cycleStep s env (some f) = .ok (s, none) := by
  simp [cycleStep, h]

/-- C6 witness: a frame with identifier `0x201` is ignored without any state
change or output. -/
theorem nonmatching_frame_no_effect_witness :
    cycleStep (initState 0 0) ⟨0, 0, 0, 0⟩ (some ⟨0x201, [1, 2, 3]⟩) =
      .ok (initState 0 0, none) :=
  nonmatching_frame_no_effect (initState 0 0) ⟨0, 0, 0, 0⟩ ⟨0x201, [1, 2, 3]⟩
    (by decide)

/-! ## Claims about the Sensor Model -/

/-- C7: on a call where the (incremented) counter is not a multiple of 20 and
with the noise draws zero, the targets are unchanged and each current value
moves strictly toward its target, the distance `target - current` shrinking
by exactly the factor `95/100` (that is, `current += (target - current) *
5/100`). -/
theorem thermal_convergence (s : SimState) (env : RandomDraws)
    (hc : (s.update_counter + 1) % 20 ≠ 0)
    (hn1 : env.noise1 = 0) (hn2 : env.noise2 = 0) :
    (thermalAdvance s env).target_temp1 = s.target_temp1 ∧
      (thermalAdvance s env).target_temp2 = s.target_temp2 ∧
      s.target_temp1 - (thermalAdvance s env).temp1 =
        (s.target_temp1 - s.temp1) * (95 / 100) ∧
      s.target_temp2 - (thermalAdvance s env).temp2 =
        (s.target_temp2 - s.temp2) * (95 / 100) ∧
      (s.temp1 ≠ s.target_temp1 →
        |s.target_temp1 - (thermalAdvance s env).temp1| <
          |s.target_temp1 - s.temp1|) ∧
      (s.temp2 ≠ s.target_temp2 →
        |s.target_temp2 - (thermalAdvance s env).temp2| <
          |s.target_temp2 - s.temp2|) := by
  have h1 : (thermalAdvance s env).target_temp1 = s.target_temp1 := by
    simp [thermalAdvance, hc]
  have h2 : (thermalAdvance s env).target_temp2 = s.target_temp2 := by
    simp [thermalAdvance, hc]
  have e1 : s.target_temp1 - (thermalAdvance s env).temp1 =
      (s.target_temp1 - s.temp1) * (95 / 100) := by
    simp only [thermalAdvance]
    rw [if_neg hc, hn1]
    ring
  have e2 : s.target_temp2 - (thermalAdvance s env).temp2 =
      (s.target_temp2 - s.temp2) * (95 / 100) := by
    simp only [thermalAdvance]
    rw [if_neg hc, hn2]
    ring
  refine ⟨h1, h2, e1, e2, ?_, ?_⟩
  · intro hne
    rw [e1, abs_mul]
    have habs : (0 : ℚ) < |s.target_temp1 - s.temp1| :=
      abs_pos.mpr (sub_ne_zero.mpr fun h => hne h.symm)
    calc |s.target_temp1 - s.temp1| * |(95 : ℚ) / 100|
        < |s.target_temp1 - s.temp1| * 1 := by
          apply mul_lt_mul_of_pos_left _ habs
          rw [abs_of_pos] <;> norm_num
      _ = |s.target_temp1 - s.temp1| := mul_one _
  · intro hne
    rw [e2, abs_mul]
    have habs : (0 : ℚ) < |s.target_temp2 - s.temp2| :=
      abs_pos.mpr (sub_ne_zero.mpr fun h => hne h.symm)
    calc |s.target_temp2 - s.temp2| * |(95 : ℚ) / 100|
        < |s.target_temp2 - s.temp2| * 1 := by
          apply mul_lt_mul_of_pos_left _ habs
          rw [abs_of_pos] <;> norm_num
      _ = |s.target_temp2 - s.temp2| := mul_one _

/-- C7 witness: with counter 0 (so the incremented counter 1 is not a
multiple of 20), temperatures 0 and targets 10 and 20, one noise-free call
shrinks both distances by exactly the factor `95/100`. -/
theorem thermal_convergence_witness :
    (thermalAdvance ⟨0, false, false, 0, 0, 0, 10, 20, 0⟩ ⟨0, 0, 0, 0⟩).target_temp1 =
        (⟨0, false, false, 0, 0, 0, 10, 20, 0⟩ : SimState).target_temp1 ∧
      (thermalAdvance ⟨0, false, false, 0, 0, 0, 10, 20, 0⟩ ⟨0, 0, 0, 0⟩).target_temp2 =
        (⟨0, false, false, 0, 0, 0, 10, 20, 0⟩ : SimState).target_temp2 ∧
      (⟨0, false, false, 0, 0, 0, 10, 20, 0⟩ : SimState).target_temp1 -
          (thermalAdvance ⟨0, false, false, 0, 0, 0, 10, 20, 0⟩ ⟨0, 0, 0, 0⟩).temp1 =
        ((⟨0, false, false, 0, 0, 0, 10, 20, 0⟩ : SimState).target_temp1 -
            (⟨0, false, false, 0, 0, 0, 10, 20, 0⟩ : SimState).temp1) * (95 / 100) ∧
      (⟨0, false, false, 0, 0, 0, 10, 20, 0⟩ : SimState).target_temp2 -
          (thermalAdvance ⟨0, false, false, 0, 0, 0, 10, 20, 0⟩ ⟨0, 0, 0, 0⟩).temp2 =
        ((⟨0, false, false, 0, 0, 0, 10, 20, 0⟩ : SimState).target_temp2 -
            (⟨0, false, false, 0, 0, 0, 10, 20, 0⟩ : SimState).temp2) * (95 / 100) ∧
      ((⟨0, false, false, 0, 0, 0, 10, 20, 0⟩ : SimState).temp1 ≠
          (⟨0, false, false, 0, 0, 0, 10, 20, 0⟩ : SimState).target_temp1 →
        |(⟨0, false, false, 0, 0, 0, 10, 20, 0⟩ : SimState).target_temp1 -
            (thermalAdvance ⟨0, false, false, 0, 0, 0, 10, 20, 0⟩ ⟨0, 0, 0, 0⟩).temp1| <
          |(⟨0, false, false, 0, 0, 0, 10, 20, 0⟩ : SimState).target_temp1 -
              (⟨0, false, false, 0, 0, 0, 10, 20, 0⟩ : SimState).temp1|) ∧
      ((⟨0, false, false, 0, 0, 0, 10, 20, 0⟩ : SimState).temp2 ≠
          (⟨0, false, false, 0, 0, 0, 10, 20, 0⟩ : SimState).target_temp2 →
        |(⟨0, false, false, 0, 0, 0, 10, 20, 0⟩ : SimState).target_temp2 -
            (thermalAdvance ⟨0, false, false, 0, 0, 0, 10, 20, 0⟩ ⟨0, 0, 0, 0⟩).temp2| <
          |(⟨0, false, false, 0, 0, 0, 10, 20, 0⟩ : SimState).target_temp2 -
              (⟨0, false, false, 0, 0, 0, 10, 20, 0⟩ : SimState).temp2|) :=
  thermal_convergence ⟨0, false, false, 0, 0, 0, 10, 20, 0⟩ ⟨0, 0, 0, 0⟩
    (by decide) rfl rfl

/-- A successful processed cycle emits exactly the assembly of
`buildOutput` on the post-update state and the decoded input. -/
lemma cycleStep_ok_some (s : SimState) (env : RandomDraws) (m : Frame)
    (s2 : SimState) (out : OutSignals)
    (h : cycleStep s env (some m) = .ok (s2, some out)) :
    ∃ d : SWStatus, decodeSW m.payload = .ok d ∧
      s2 = thermalAdvance (trackerUpdate s d) env ∧ out = buildOutput s2 d := by
  by_cases hid : m.arbitration_id = 0x101
  · simp only [cycleStep, if_pos hid] at h
    cases hd : decodeSW m.payload with
    | error e => rw [hd] at h; exact absurd h (by simp)
    | ok d =>
        rw [hd] at h
        simp only [Except.ok.injEq, Prod.mk.injEq, Option.some.injEq] at h
        exact ⟨d, rfl, h.1.symm, by rw [← h.2, h.1]⟩
  · simp only [cycleStep, if_neg hid] at h
    simp at h

/-- C9: in every emitted output frame the `LED1_Temperature` signal is true
if and only if sensor 2's current value exceeds 130 at the moment the frame
is assembled (i.e. after this cycle's thermal update). -/
theorem led1_iff_temp2_above_130 (s : SimState) (env : RandomDraws)
    (m : Frame) (s2 : SimState) (out : OutSignals)
    (h : cycleStep s env (some m) = .ok (s2, some out)) :
    out.LED1_Temperature = true ↔ s2.temp2 > 130 := by
  obtain ⟨d, -, -, hout⟩ := cycleStep_ok_some s env m s2 out h
  rw [hout]
  simp [buildOutput]

/-- C9 witness: a concrete processed cycle from the initial state; the
emitted frame has `LED1_Temperature = false` and indeed the updated sensor 2
value 0 does not exceed 130. -/
theorem led1_iff_temp2_above_130_witness :
    ((⟨0, 0, false, false, false, false, 1, 0, 0⟩ : OutSignals).LED1_Temperature
        = true) ↔
      ((⟨1, false, false, 1, 0, 0, 0, 0, 1⟩ : SimState).temp2 > 130) :=
  led1_iff_temp2_above_130 (initState 0 0) ⟨0, 0, 0, 0⟩ ⟨0x101, [1, 0, 0]⟩
    ⟨1, false, false, 1, 0, 0, 0, 0, 1⟩
    ⟨0, 0, false, false, false, false, 1, 0, 0⟩ (by with_unfolding_all rfl)

/-- C10: in every emitted output frame the `LED2_PitLimiter` signal equals
`PitLimiter_Active`: both are assembled from the same `pit_active` state and
can never disagree. -/
theorem led2_eq_pit_active (s : SimState) (env : RandomDraws)
    (m : Frame) (s2 : SimState) (out : OutSignals)
    (h : cycleStep s env (some m) = .ok (s2, some out)) :
    out.LED2_PitLimiter = out.PitLimiter_Active := by
  obtain ⟨d, -, -, hout⟩ := cycleStep_ok_some s env m s2 out h
  rw [hout]
  simp [buildOutput]

/-- C10 witness: on a concrete processed cycle that toggles the pit latch,
the two pit output fields agree. -/
theorem led2_eq_pit_active_witness :
    (⟨0, 0, true, false, true, false, 0, 0, 0⟩ : OutSignals).LED2_PitLimiter =
      (⟨0, 0, true, false, true, false, 0, 0, 0⟩ : OutSignals).PitLimiter_Active :=
  led2_eq_pit_active (initState 0 0) ⟨0, 0, 0, 0⟩ ⟨0x101, [8, 0, 0]⟩
    ⟨0, true, false, 8, 0, 0, 0, 0, 1⟩
    ⟨0, 0, true, false, true, false, 0, 0, 0⟩ (by with_unfolding_all rfl)

/-! ## The error-handling claim -/

/-- Decoding fails exactly when the payload is shorter than the 3 bytes the
modelled layout requires. -/
lemma decodeSW_short (payload : List ℕ) (h : payload.length < 3) :
    decodeSW payload = .error .decodeError := by
  match payload with
  | [] => rfl
  | [a] => rfl
  | [a, b] => rfl
  | a :: b :: c :: rest => simp at h; omega

/-- C1 counterexample: a matching frame whose payload is too short raises a
`DecodeError` that is not caught anywhere in the loop body, so the driver
loop terminates: a well-formed frame queued right behind it is never
processed and produces no output, although on its own it would be processed
and answered. This falsifies the claim that a decode error aborts only its
own cycle and that the next wait-for-frame begins. -/
theorem decode_error_kills_loop_counterexample :
    runLoop (initState 0 0)
        [(⟨0, 0, 0, 0⟩, some ⟨0x101, []⟩), (⟨0, 0, 0, 0⟩, some ⟨0x101, [1, 0, 0]⟩)] =
      .error (.decodeError, initState 0 0) ∧
    runLoop (initState 0 0) [(⟨0, 0, 0, 0⟩, some ⟨0x101, [1, 0, 0]⟩)] =
      .ok (⟨1, false, false, 1, 0, 0, 0, 0, 1⟩,
        [⟨0, 0, false, false, false, false, 1, 0, 0⟩]) :=
  ⟨by with_unfolding_all rfl, by with_unfolding_all rfl⟩

/-- C1 (amended): a `DecodeError` raised while decoding a matching frame is
uncaught and propagates out of the `while True` loop, terminating the driver
(no further wait-for-frame begins, the queued remainder of the stream is
never processed); the internal derived state (gear, pit/DRS latches, thermal
state, previous button bitmask) at the moment of termination is unchanged
from its value before the failed cycle, as the failure precedes every state
update. -/
theorem decode_error_terminates_loop (s : SimState) (env : RandomDraws)
    (f : Frame) (rest : List (RandomDraws × Option Frame))
    (hid : f.arbitration_id = 0x101) (hshort : f.payload.length < 3) :
    runLoop s ((env, some f) :: rest) = .error (.decodeError, s) := by
  simp [runLoop, cycleStep, hid, decodeSW_short f.payload hshort]

/-- C1 (amended) witness: a one-byte payload on identifier `0x101` kills the
loop at once with the state untouched. -/
theorem decode_error_terminates_loop_witness :
    runLoop (initState 0 0)
        [(⟨0, 0, 0, 0⟩, some ⟨0x101, [7]⟩), (⟨0, 0, 0, 0⟩, none)] =
      .error (.decodeError, initState 0 0) :=
  decode_error_terminates_loop (initState 0 0) ⟨0, 0, 0, 0⟩ ⟨0x101, [7]⟩
    [(⟨0, 0, 0, 0⟩, none)] rfl (by decide)

/-! ## The Signal Codec round trip -/

/-- Modelled from the spec: the Signal Codec of §4.1 is realized by the
external `cantools` library driven by `drivers/steering_wheel.dbc`, neither
of which is under `src/`; §4.1 fixes the contract embedded here. A signal
occupies the bit field at `{start, len}` of the payload, stores a raw integer
in `len` bits (two's complement when `is_signed`) and carries the physical
value `raw * scale + offset`. Byte order only fixes the numbering of payload
bits, so the payload is abstracted to a single natural number whose bit `i`
is payload bit `i`. -/
structure SignalSpec where
  start : ℕ
  len : ℕ
  is_signed : Bool
  scale : ℚ
  offset : ℚ
deriving DecidableEq

/-- The raw integer a physical value quantizes to:
`raw = round((physical - offset) / scale)` (§4.1). -/
def rawOf (sp : SignalSpec) (v : ℚ) : ℤ := round ((v - sp.offset) / sp.scale)

/-- The `len`-bit pattern stored for a physical value (two's complement for
signed signals). -/
def storedOf (sp : SignalSpec) (v : ℚ) : ℕ :=
  (rawOf sp v % (2 ^ sp.len : ℤ)).toNat

/-- The §4.1 range check on encode: the quantized raw value must fit the
declared `len`-bit field (signed or unsigned). -/
def inRange (sp : SignalSpec) (v : ℚ) : Bool :=
  if sp.is_signed then
    decide (-(2 ^ (sp.len - 1) : ℤ) ≤ rawOf sp v) &&
      decide (rawOf sp v < 2 ^ (sp.len - 1))
  else
    decide (0 ≤ rawOf sp v) && decide (rawOf sp v < 2 ^ sp.len)

/-- Encoding writes each signal's stored bits into a zero-initialized buffer
(§4.1); for non-overlapping bit fields the bitwise writes add up, so the
payload is the sum of the shifted stored patterns. Signals and values are
paired positionally. -/
def encodeFields : List SignalSpec → List ℚ → ℕ
  | sp :: sps, v :: vs => storedOf sp v * 2 ^ sp.start + encodeFields sps vs
  | _, _ => 0

/-- The stored bit pattern of one signal, extracted from a payload. -/
def extractField (sp : SignalSpec) (p : ℕ) : ℕ := p / 2 ^ sp.start % 2 ^ sp.len

/-- Decoding one signal (§4.1): extract its bit field, reinterpret it as a
two's-complement value when the signal is signed, then apply
`physical = raw * scale + offset`. -/
def decodeField (sp : SignalSpec) (p : ℕ) : ℚ :=
  let u := extractField sp p
  let r : ℤ :=
    if sp.is_signed && decide (2 ^ (sp.len - 1) ≤ u) then (u : ℤ) - 2 ^ sp.len
    else (u : ℤ)
  r * sp.scale + sp.offset

/-- Decoding every signal of a schema from a payload. -/
def decodeFields (sps : List SignalSpec) (p : ℕ) : List ℚ :=
  sps.map fun sp => decodeField sp p

/-- A schema is well formed when its signals sit at pairwise disjoint,
ascending bit ranges. -/
def sortedDisjoint (sps : List SignalSpec) : Prop :=
  List.Pairwise (fun a b => a.start + a.len ≤ b.start) sps

/-- The round-trip tolerance of §8 property 1, taken pointwise: each decoded
value is within half a scale step of the value that was encoded. -/
def withinTolerance : List SignalSpec → List ℚ → List ℚ → Prop
  | [], [], [] => True
  | sp :: sps, v :: vs, d :: ds => |d - v| ≤ sp.scale / 2 ∧ withinTolerance sps vs ds
  | _, _, _ => False

/-- The stored pattern always fits its bit field. -/
lemma storedOf_lt (sp : SignalSpec) (v : ℚ) : storedOf sp v < 2 ^ sp.len := by
  have hpos : (0 : ℤ) < (2 : ℤ) ^ sp.len := by positivity
  have h0 : 0 ≤ rawOf sp v % (2 ^ sp.len : ℤ) :=
    Int.emod_nonneg _ (ne_of_gt hpos)
  have h1 : rawOf sp v % (2 ^ sp.len : ℤ) < (2 : ℤ) ^ sp.len :=
    Int.emod_lt_of_pos _ hpos
  have hcast : ((2 : ℤ) ^ sp.len) = ((2 ^ sp.len : ℕ) : ℤ) := by push_cast; ring
  rw [hcast] at h1
  unfold storedOf
  omega

/-- Every summand of the encoded payload is shifted past bit `m` when every
field starts at or after bit `m`. -/
lemma pow_dvd_encodeFields (m : ℕ) (sps : List SignalSpec) (vs : List ℚ)
    (h : ∀ sp ∈ sps, m ≤ sp.start) : 2 ^ m ∣ encodeFields sps vs := by
  induction sps generalizing vs with
  | nil => simp [encodeFields]
  | cons sp sps ih =>
      cases vs with
      | nil => simp [encodeFields]
      | cons v vs =>
          show 2 ^ m ∣ storedOf sp v * 2 ^ sp.start + encodeFields sps vs
          apply dvd_add
          · exact Dvd.dvd.mul_left
              (pow_dvd_pow 2 (h sp (List.mem_cons_self sp sps))) _
          · exact ih vs (fun sq hsq => h sq (List.mem_cons_of_mem sp hsq))

/-- Extracting a bit field from a payload made of bits strictly below the
field, the field's own stored pattern, and bits at or above its end returns
exactly the stored pattern. -/
lemma extract_exact (s l r q : ℕ) (hr : r < 2 ^ l) :
    (r * 2 ^ s + q * 2 ^ (s + l)) / 2 ^ s % 2 ^ l = r := by
  have h2s : 0 < 2 ^ s := Nat.pos_pow_of_pos s (by norm_num)
  have hsplit : r * 2 ^ s + q * 2 ^ (s + l) = 2 ^ s * (r + q * 2 ^ l) := by
    rw [pow_add]; ring
  rw [hsplit, Nat.mul_div_cancel_left _ h2s, Nat.add_mul_mod_self_right,
    Nat.mod_eq_of_lt hr]

/-- Bits strictly below position `m` do not affect the extraction of a field
starting at or after `m` from a payload whose other bits sit at or above
`m`. -/
lemma extract_add_low (low X s l m : ℕ) (hm : m ≤ s) (hlow : low < 2 ^ m)
    (hX : 2 ^ m ∣ X) :
    (low + X) / 2 ^ s % 2 ^ l = X / 2 ^ s % 2 ^ l := by
  obtain ⟨Y, rfl⟩ := hX
  have h2m : 0 < 2 ^ m := Nat.pos_pow_of_pos m (by norm_num)
  have hs : (2 : ℕ) ^ s = 2 ^ m * 2 ^ (s - m) := by
    rw [← pow_add]
    congr 1
    omega
  rw [hs, ← Nat.div_div_eq_div_mul, ← Nat.div_div_eq_div_mul]
  have hdiv : (low + 2 ^ m * Y) / 2 ^ m = Y := by
    rw [Nat.add_mul_div_left _ _ h2m, Nat.div_eq_of_lt hlow, Nat.zero_add]
  rw [hdiv, Nat.mul_div_cancel_left _ h2m]

/-- Reinterpreting the stored two's-complement pattern of an in-range value
recovers the raw integer exactly. -/
lemma decode_storedOf (sp : SignalSpec) (v : ℚ) (hlen : 0 < sp.len)
    (hin : inRange sp v = true) :
    (if sp.is_signed && decide (2 ^ (sp.len - 1) ≤ storedOf sp v)
      then ((storedOf sp v : ℤ) - 2 ^ sp.len)
      else ((storedOf sp v : ℤ))) = rawOf sp v := by
  have hpos : (0 : ℤ) < (2 : ℤ) ^ sp.len := by positivity
  cases hsg : sp.is_signed with
  | false =>
      simp only [hsg, Bool.false_and, if_false]
      simp [inRange, hsg] at hin
      obtain ⟨h0, h1⟩ := hin
      unfold storedOf
      rw [Int.emod_eq_of_lt h0 h1, Int.toNat_of_nonneg h0]
      simp
  | true =>
      simp [inRange, hsg] at hin
      obtain ⟨h0, h1⟩ := hin
      have hk : sp.len - 1 + 1 = sp.len := by omega
      have h2 : (2 : ℤ) ^ sp.len = 2 ^ (sp.len - 1) * 2 := by
        rw [← pow_succ, hk]
      have hkpos : (0 : ℤ) < (2 : ℤ) ^ (sp.len - 1) := by positivity
      have hcastk : ((2 ^ (sp.len - 1) : ℕ) : ℤ) = (2 : ℤ) ^ (sp.len - 1) := by
        push_cast; ring
      rcases le_or_lt 0 (rawOf sp v) with hge | hlt
      · have hlt2 : rawOf sp v < (2 : ℤ) ^ sp.len := by
          calc rawOf sp v < 2 ^ (sp.len - 1) := h1
            _ ≤ (2 : ℤ) ^ sp.len := by linarith [hkpos, h2]
        have hstored : (storedOf sp v : ℤ) = rawOf sp v := by
          unfold storedOf
          rw [Int.emod_eq_of_lt hge hlt2, Int.toNat_of_nonneg hge]
        have hcond : ¬ (2 ^ (sp.len - 1) ≤ storedOf sp v) := by
          intro hc
          have : ((2 ^ (sp.len - 1) : ℕ) : ℤ) ≤ (storedOf sp v : ℤ) := by
            exact_mod_cast hc
          rw [hcastk, hstored] at this
          omega
        simp only [hsg, Bool.true_and, decide_eq_false hcond, if_false]
        exact hstored
      · have hge2 : 0 ≤ rawOf sp v + (2 : ℤ) ^ sp.len := by linarith [hkpos, h2]
        have hlt2 : rawOf sp v + (2 : ℤ) ^ sp.len < (2 : ℤ) ^ sp.len := by linarith [hlt]
        have hstored : (storedOf sp v : ℤ) = rawOf sp v + (2 : ℤ) ^ sp.len := by
          unfold storedOf
          rw [← Int.add_emod_self, Int.emod_eq_of_lt hge2 hlt2,
            Int.toNat_of_nonneg hge2]
        have hcond : 2 ^ (sp.len - 1) ≤ storedOf sp v := by
          have hbig : ((2 ^ (sp.len - 1) : ℕ) : ℤ) ≤ (storedOf sp v : ℤ) := by
            rw [hcastk, hstored]
            linarith [hkpos, h2]
          exact_mod_cast hbig
        simp only [hsg, Bool.true_and, decide_eq_true hcond, if_true]
        rw [hstored]
        ring

/-- The head field's bits sit strictly below every tail field, so they do
not disturb the decoding of the tail fields. -/
lemma decodeFields_encode_cons (sp : SignalSpec) (v : ℚ)
    (sps : List SignalSpec) (vs : List ℚ)
    (hub : ∀ sq ∈ sps, sp.start + sp.len ≤ sq.start) :
    decodeFields sps (encodeFields (sp :: sps) (v :: vs)) =
      decodeFields sps (encodeFields sps vs) := by
  unfold decodeFields
  apply List.map_congr_left
  intro sq hsq
  have hext : extractField sq (encodeFields (sp :: sps) (v :: vs)) =
      extractField sq (encodeFields sps vs) := by
    show (storedOf sp v * 2 ^ sp.start + encodeFields sps vs) / 2 ^ sq.start %
        2 ^ sq.len = _
    have hlow : storedOf sp v * 2 ^ sp.start < 2 ^ (sp.start + sp.len) := by
      rw [pow_add, mul_comm (2 ^ sp.start)]
      exact Nat.mul_lt_mul_of_lt_of_le (storedOf_lt sp v) (le_refl _)
        (Nat.pos_pow_of_pos sp.start (by norm_num))
    exact extract_add_low _ _ _ _ _ (hub sq hsq) hlow
      (pow_dvd_encodeFields _ sps vs hub)
  unfold decodeField
  rw [hext]

/-- C8: for every well-formed schema (pairwise disjoint ascending bit fields,
positive bit lengths, positive scale factors) and every value list whose
entries pass the §4.1 range check, decoding the encoded payload returns every
signal's value up to the rounding tolerance implied by its scale factor:
each decoded value differs from the original by at most `scale / 2`. -/
theorem codec_round_trip (sps : List SignalSpec) (vs : List ℚ)
    (hwf : sortedDisjoint sps)
    (hlen : ∀ sp ∈ sps, 0 < sp.len)
    (hscale : ∀ sp ∈ sps, 0 < sp.scale)
    (hin : List.Forall₂ (fun sp v => inRange sp v = true) sps vs) :
    withinTolerance sps vs (decodeFields sps (encodeFields sps vs)) := by
  induction sps generalizing vs with
  | nil =>
      cases hin
      simp [withinTolerance, decodeFields]
  | cons sp sps ih =>
      cases hin with
      | cons hrel hrest =>
        rename_i v vs
        obtain ⟨hub, hwf2⟩ := List.pairwise_cons.mp hwf
        have hlenh := hlen sp (List.mem_cons_self sp sps)
        have hscaleh := hscale sp (List.mem_cons_self sp sps)
        show |decodeField sp (encodeFields (sp :: sps) (v :: vs)) - v| ≤
            sp.scale / 2 ∧
          withinTolerance sps vs
            (decodeFields sps (encodeFields (sp :: sps) (v :: vs)))
        constructor
        · have hext : extractField sp (encodeFields (sp :: sps) (v :: vs)) =
              storedOf sp v := by
            obtain ⟨q, hq⟩ := pow_dvd_encodeFields (sp.start + sp.len) sps vs hub
            show (storedOf sp v * 2 ^ sp.start + encodeFields sps vs) /
                2 ^ sp.start % 2 ^ sp.len = _
            rw [hq, mul_comm (2 ^ (sp.start + sp.len)) q]
            exact extract_exact sp.start sp.len _ q (storedOf_lt sp v)
          have hdec : decodeField sp (encodeFields (sp :: sps) (v :: vs)) =
              (rawOf sp v : ℚ) * sp.scale + sp.offset := by
            simp only [decodeField]
            rw [hext, decode_storedOf sp v hlenh hrel]
          rw [hdec]
          have hx : ((rawOf sp v : ℚ)) * sp.scale + sp.offset - v =
              ((rawOf sp v : ℚ) - (v - sp.offset) / sp.scale) * sp.scale := by
            rw [sub_mul, div_mul_cancel₀ _ (ne_of_gt hscaleh)]
            ring
          rw [hx, abs_mul, abs_of_pos hscaleh]
          have hround : |(rawOf sp v : ℚ) - (v - sp.offset) / sp.scale| ≤ 1 / 2 := by
            rw [abs_sub_comm]
            exact abs_sub_round ((v - sp.offset) / sp.scale)
          calc |(rawOf sp v : ℚ) - (v - sp.offset) / sp.scale| * sp.scale
              ≤ (1 / 2) * sp.scale :=
                mul_le_mul_of_nonneg_right hround (le_of_lt hscaleh)
            _ = sp.scale / 2 := by ring
        · rw [decodeFields_encode_cons sp v sps vs hub]
          exact ih vs hwf2
            (fun sq hsq => hlen sq (List.mem_cons_of_mem sp hsq))
            (fun sq hsq => hscale sq (List.mem_cons_of_mem sp hsq)) hrest

/-- C8 witness: a two-signal schema — an unsigned byte at bit 0 and a signed
nibble at bit 8, both with scale 1 — round-trips the in-range values 3 and
-3 within tolerance. -/
theorem codec_round_trip_witness :
    withinTolerance [⟨0, 8, false, 1, 0⟩, ⟨8, 4, true, 1, 0⟩] [3, -3]
      (decodeFields [⟨0, 8, false, 1, 0⟩, ⟨8, 4, true, 1, 0⟩]
        (encodeFields [⟨0, 8, false, 1, 0⟩, ⟨8, 4, true, 1, 0⟩] [3, -3])) :=
  codec_round_trip [⟨0, 8, false, 1, 0⟩, ⟨8, 4, true, 1, 0⟩] [3, -3]
    (by simp [sortedDisjoint])
    (by simp)
    (by simp)
    (List.Forall₂.cons (by with_unfolding_all rfl)
      (List.Forall₂.cons (by with_unfolding_all rfl) List.Forall₂.nil))

end EcuSim
